import Mathlib

/-
Verification of the AsyncDeque specification against the code in
src/include/async_deque/async_deque.hpp and src/tests/async_deque_tests.cpp.

The queue state is the triple of protected fields of class AsyncDeque<T>
(header lines 67-71): the underlying std::deque, the closed flag and the
const capacity.  Mutex and condition variable are synchronization devices
with no observable sequential state and are not part of the embedding; a
blocking operation that cannot complete is modelled as returning no result.
The five virtual hooks (header lines 84-111) are no-ops in the base class;
we record each hook invocation as an event so that derived-class observable
behaviour (tests lines 295-351) can be stated.
-/

/-- Hook invocation event: one entry is recorded each time one of the five
virtual extension hooks of the queue fires (header lines 84-111). -/
inductive HookEvent (T : Type) where
  | onPushBack (item : T)
  | onPushFront (item : T)
  | onPopBack (item : T)
  | onPopFront (item : T)
  | onClose
  deriving DecidableEq

/-- The mutable state of an AsyncDeque instance (header lines 67-71): the
underlying container `deque_`, the flag `closed_` (false at construction)
and the const member `capacity_`.  The front of the std::deque is the head
of the list. -/
structure AsyncDeque (T : Type) where
  deque_ : List T
  closed_ : Bool
  capacity_ : Nat
  deriving DecidableEq

namespace AsyncDeque

/-- Constructor (header lines 126-127): the queue starts empty and open,
with the capacity fixed forever. -/
def new (T : Type) (capacity : Nat) : AsyncDeque T :=
  ⟨[], false, capacity⟩

/-- Move constructor (header lines 153-158).  The new queue copies the
source's capacity, takes over its buffer and copies its closed flag; the
moved-from std::deque is left empty.  The source's `closed_` field is not
written at all, so the source keeps its closed flag.  Returns
(new queue, source afterwards). -/
def moveConstruct {T : Type} (source : AsyncDeque T) : AsyncDeque T × AsyncDeque T :=
  (⟨source.deque_, source.closed_, source.capacity_⟩,
   ⟨[], source.closed_, source.capacity_⟩)

/-- Move assignment (header lines 169-176).  `ptrEq` models the pointer
test `this == &other`; the body runs only when the objects are distinct
and the capacities are equal, in which case the target takes the source's
buffer and closed flag (its own const capacity is unchanged) and the
moved-from std::deque is left empty, the source's closed flag untouched.
Otherwise both objects are unchanged.  Returns (target, source) afterwards. -/
def moveAssign {T : Type} (ptrEq : Bool) (target source : AsyncDeque T) :
    AsyncDeque T × AsyncDeque T :=
  if ptrEq = false ∧ target.capacity_ = source.capacity_ then
    (⟨source.deque_, source.closed_, target.capacity_⟩,
     ⟨[], source.closed_, source.capacity_⟩)
  else (target, source)

/-- Modelled from the spec: the body of `push_back` is elided in the header
(line 207, "Implementation as before...").  Per spec §4.1: returns false
immediately if closed; blocks while the queue is full and open (modelled as
`none`, the call does not complete); otherwise appends at the back, invokes
`on_push_back(item)` and returns true.  Result: (return value, state after,
hook events), or `none` when the call blocks. -/
def push_back {T : Type} (q : AsyncDeque T) (item : T) :
    Option (Bool × AsyncDeque T × List (HookEvent T)) :=
  if q.closed_ then some (false, q, [])
  else if q.deque_.length < q.capacity_ then
    some (true, ⟨q.deque_ ++ [item], q.closed_, q.capacity_⟩, [.onPushBack item])
  else none

/-- Modelled from the spec: the body of `push_front` is absent from the
header.  Same as `push_back` but prepends at the front and invokes
`on_push_front(item)`. -/
def push_front {T : Type} (q : AsyncDeque T) (item : T) :
    Option (Bool × AsyncDeque T × List (HookEvent T)) :=
  if q.closed_ then some (false, q, [])
  else if q.deque_.length < q.capacity_ then
    some (true, ⟨item :: q.deque_, q.closed_, q.capacity_⟩, [.onPushFront item])
  else none

/-- Modelled from the spec: the body of `try_push_back` is absent from the
header (declared at lines 221-223).  Deadline variant of `push_back`: on a
full open queue the wait expires and the call returns false instead of
blocking, so it always completes.  The timeout duration itself has no
sequentially observable effect and is not modelled. -/
def try_push_back {T : Type} (q : AsyncDeque T) (item : T) :
    Bool × AsyncDeque T × List (HookEvent T) :=
  if q.closed_ then (false, q, [])
  else if q.deque_.length < q.capacity_ then
    (true, ⟨q.deque_ ++ [item], q.closed_, q.capacity_⟩, [.onPushBack item])
  else (false, q, [])

/-- Modelled from the spec: the body of `try_push_front` is absent from the
header.  Deadline variant of `push_front`. -/
def try_push_front {T : Type} (q : AsyncDeque T) (item : T) :
    Bool × AsyncDeque T × List (HookEvent T) :=
  if q.closed_ then (false, q, [])
  else if q.deque_.length < q.capacity_ then
    (true, ⟨item :: q.deque_, q.closed_, q.capacity_⟩, [.onPushFront item])
  else (false, q, [])

/-- Modelled from the spec: the body of `pop_front` is absent from the
header.  Per spec §4.1: if the queue is non-empty, removes the front item,
invokes `on_pop_front` and returns it; if empty and closed, returns the
empty Optional immediately; if empty and open, blocks (`none`). -/
def pop_front {T : Type} (q : AsyncDeque T) :
    Option (Option T × AsyncDeque T × List (HookEvent T)) :=
  match q.deque_ with
  | item :: rest => some (some item, ⟨rest, q.closed_, q.capacity_⟩, [.onPopFront item])
  | [] => if q.closed_ then some (none, q, []) else none

/-- Modelled from the spec: the body of `pop_back` is absent from the
header.  Same as `pop_front` but removes from the back and invokes
`on_pop_back`. -/
def pop_back {T : Type} (q : AsyncDeque T) :
    Option (Option T × AsyncDeque T × List (HookEvent T)) :=
  match q.deque_.getLast? with
  | some item => some (some item, ⟨q.deque_.dropLast, q.closed_, q.capacity_⟩, [.onPopBack item])
  | none => if q.closed_ then some (none, q, []) else none

/-- Modelled from the spec: the body of `try_pop_front` is absent from the
header.  Deadline variant of `pop_front`: on an empty open queue the wait
expires and the call returns the empty Optional instead of blocking. -/
def try_pop_front {T : Type} (q : AsyncDeque T) :
    Option T × AsyncDeque T × List (HookEvent T) :=
  match q.deque_ with
  | item :: rest => (some item, ⟨rest, q.closed_, q.capacity_⟩, [.onPopFront item])
  | [] => (none, q, [])

/-- Modelled from the spec: the body of `try_pop_back` is absent from the
header.  Deadline variant of `pop_back`. -/
def try_pop_back {T : Type} (q : AsyncDeque T) :
    Option T × AsyncDeque T × List (HookEvent T) :=
  match q.deque_.getLast? with
  | some item => (some item, ⟨q.deque_.dropLast, q.closed_, q.capacity_⟩, [.onPopBack item])
  | none => (none, q, [])

/-- Modelled from the spec: the body of `close` is absent from the header
(the destructor at lines 135-137 calls it).  Per spec §4.1: if already
closed, returns doing nothing; otherwise sets `closed = true`, invokes
`on_close()` and wakes all waiters.  Returns (state after, hook events). -/
def close {T : Type} (q : AsyncDeque T) : AsyncDeque T × List (HookEvent T) :=
  if q.closed_ then (q, []) else (⟨q.deque_, true, q.capacity_⟩, [.onClose])

/-- Modelled from the spec: the accessor bodies are absent from the header.
`size()` returns the number of stored items. -/
def size {T : Type} (q : AsyncDeque T) : Nat :=
  q.deque_.length

/-- Modelled from the spec: `empty()` returns whether the queue holds no
items. -/
def empty {T : Type} (q : AsyncDeque T) : Bool :=
  q.deque_.isEmpty

/-- Modelled from the spec: `capacity()` returns the immutable capacity
field. -/
def capacity {T : Type} (q : AsyncDeque T) : Nat :=
  q.capacity_

/-- Modelled from the spec: `is_closed()` returns the closed flag. -/
def is_closed {T : Type} (q : AsyncDeque T) : Bool :=
  q.closed_

end AsyncDeque

/-- A public operation applied to one tracked queue instance.  Move
operations involving a second instance carry that instance's state:
`moveAssignFrom` makes the tracked queue the assignment target,
`movedFromByAssign` makes it the assignment source, and
`movedFromByConstruct` uses it as the source of a move construction.
`ptrEq` models the pointer test `this == &other` of operator=. -/
inductive Op (T : Type) where
  | pushBack (item : T)
  | pushFront (item : T)
  | tryPushBack (item : T)
  | tryPushFront (item : T)
  | popBack
  | popFront
  | tryPopBack
  | tryPopFront
  | close
  | sizeOp
  | emptyOp
  | capacityOp
  | isClosedOp
  | moveAssignFrom (ptrEq : Bool) (source : AsyncDeque T)
  | movedFromByAssign (ptrEq : Bool) (target : AsyncDeque T)
  | movedFromByConstruct
  deriving DecidableEq

/-- The value an operation returns to its caller.  `blocked` marks a call
that never completes in a sequential execution (push on a full open queue,
pop on an empty open queue). -/
inductive OpResult (T : Type) where
  | pushRes (ok : Bool)
  | popRes (v : Option T)
  | natRes (n : Nat)
  | boolRes (b : Bool)
  | unitRes
  | blocked
  deriving DecidableEq

/-- One completed public operation: result returned, state afterwards, and
the hook events fired during the call.  A blocking call leaves the state
unchanged and fires no hooks. -/
def step {T : Type} (q : AsyncDeque T) : Op T → OpResult T × AsyncDeque T × List (HookEvent T)
  | .pushBack x =>
      match q.push_back x with
      | some (b, q2, ev) => (.pushRes b, q2, ev)
      | none => (.blocked, q, [])
  | .pushFront x =>
      match q.push_front x with
      | some (b, q2, ev) => (.pushRes b, q2, ev)
      | none => (.blocked, q, [])
  | .tryPushBack x =>
      match q.try_push_back x with
      | (b, q2, ev) => (.pushRes b, q2, ev)
  | .tryPushFront x =>
      match q.try_push_front x with
      | (b, q2, ev) => (.pushRes b, q2, ev)
  | .popBack =>
      match q.pop_back with
      | some (v, q2, ev) => (.popRes v, q2, ev)
      | none => (.blocked, q, [])
  | .popFront =>
      match q.pop_front with
      | some (v, q2, ev) => (.popRes v, q2, ev)
      | none => (.blocked, q, [])
  | .tryPopBack =>
      match q.try_pop_back with
      | (v, q2, ev) => (.popRes v, q2, ev)
  | .tryPopFront =>
      match q.try_pop_front with
      | (v, q2, ev) => (.popRes v, q2, ev)
  | .close =>
      match q.close with
      | (q2, ev) => (.unitRes, q2, ev)
  | .sizeOp => (.natRes q.size, q, [])
  | .emptyOp => (.boolRes q.empty, q, [])
  | .capacityOp => (.natRes q.capacity, q, [])
  | .isClosedOp => (.boolRes q.is_closed, q, [])
  | .moveAssignFrom ptrEq source => (.unitRes, (AsyncDeque.moveAssign ptrEq q source).1, [])
  | .movedFromByAssign ptrEq target => (.unitRes, (AsyncDeque.moveAssign ptrEq target q).2, [])
  | .movedFromByConstruct => (.unitRes, (AsyncDeque.moveConstruct q).2, [])

/-- All states visited while running a sequence of operations, the start
state included: `trace q ops` has `ops.length + 1` entries. -/
def trace {T : Type} (q : AsyncDeque T) : List (Op T) → List (AsyncDeque T)
  | [] => [q]
  | op :: rest => q :: trace (step q op).2.1 rest

/-- Final state and concatenated hook-event log of a run. -/
def runTrace {T : Type} (q : AsyncDeque T) : List (Op T) → AsyncDeque T × List (HookEvent T)
  | [] => (q, [])
  | op :: rest =>
      ((runTrace (step q op).2.1 rest).1,
       (step q op).2.2 ++ (runTrace (step q op).2.1 rest).2)

/-- The (operation, returned result) pairs of a run, in order. -/
def stepPairs {T : Type} (q : AsyncDeque T) : List (Op T) → List (Op T × OpResult T)
  | [] => []
  | op :: rest => (op, (step q op).1) :: stepPairs (step q op).2.1 rest

/-- Holds when every step of the run satisfies `P` applied to the state
before the step, the operation, the result, and the state after. -/
def StepsSatisfy {T : Type} (q : AsyncDeque T) :
    List (Op T) → (AsyncDeque T → Op T → OpResult T → AsyncDeque T → Prop) → Prop
  | [], _ => True
  | op :: rest, P => P q op (step q op).1 (step q op).2.1 ∧ StepsSatisfy (step q op).2.1 rest P

/-- True exactly for the operation that makes the tracked queue the target
of a move assignment, the one operation that can overwrite its closed flag. -/
def isMoveAssignTarget {T : Type} : Op T → Bool
  | .moveAssignFrom _ _ => true
  | _ => false

/-- True for the eight push and pop operations. -/
def isPushPop {T : Type} : Op T → Bool
  | .pushBack _ => true
  | .pushFront _ => true
  | .tryPushBack _ => true
  | .tryPushFront _ => true
  | .popBack => true
  | .popFront => true
  | .tryPopBack => true
  | .tryPopFront => true
  | _ => false

/-- True for the push, pop and close operations. -/
def isPushPopClose {T : Type} : Op T → Bool
  | .close => true
  | op => isPushPop op

/-- True exactly for the close operation. -/
def isCloseOp {T : Type} : Op T → Bool
  | .close => true
  | _ => false

/-- Well-formedness of the foreign queue state embedded in an operation: a
queue used as the source of a move assignment must itself satisfy the size
invariant, since it is itself a constructed queue. -/
def OpSourcesWF {T : Type} : Op T → Prop
  | .moveAssignFrom _ source => source.deque_.length ≤ source.capacity_
  | _ => True

instance {T : Type} (op : Op T) : Decidable (OpSourcesWF op) := by
  cases op
  case moveAssignFrom p s => exact (inferInstance : Decidable (s.deque_.length ≤ s.capacity_))
  all_goals exact (inferInstance : Decidable True)

/-- Step property for closed-flag monotonicity: the flag never drops back
to false, and any change is the false-to-true transition of `close`. -/
def ClosedMonotoneStep {T : Type} (s : AsyncDeque T) (op : Op T) (_ : OpResult T)
    (s2 : AsyncDeque T) : Prop :=
  (s.closed_ = true → s2.closed_ = true) ∧
  (s.closed_ ≠ s2.closed_ → op = Op.close ∧ s.closed_ = false ∧ s2.closed_ = true)

/-- Step property for operations on a closed queue: the call completes
without blocking, every push returns false leaving the state unchanged, and
every pop returns the item removed from its end when the queue is non-empty
and the empty Optional when it is empty. -/
def ClosedQueueStep {T : Type} (s : AsyncDeque T) (op : Op T) (r : OpResult T)
    (s2 : AsyncDeque T) : Prop :=
  r ≠ OpResult.blocked ∧
  match op with
  | .pushBack _ | .pushFront _ | .tryPushBack _ | .tryPushFront _ =>
      r = OpResult.pushRes false ∧ s2 = s
  | .popFront | .tryPopFront => r = OpResult.popRes s.deque_.head?
  | .popBack | .tryPopBack => r = OpResult.popRes s.deque_.getLast?
  | _ => True

/-- Running `close` n times in a row, collecting the final state and all
hook events fired across the calls. -/
def closeN {T : Type} (q : AsyncDeque T) : Nat → AsyncDeque T × List (HookEvent T)
  | 0 => (q, [])
  | n + 1 =>
      ((closeN q.close.1 n).1, q.close.2 ++ (closeN q.close.1 n).2)

/-- Pushes the given values in order with `push_back`; `some` of the final
state when every push completed and returned true, `none` otherwise. -/
def pushAllBack {T : Type} (q : AsyncDeque T) : List T → Option (AsyncDeque T)
  | [] => some q
  | x :: rest =>
      match q.push_back x with
      | some (true, q2, _) => pushAllBack q2 rest
      | _ => none

/-- Pops n times with `pop_front`, collecting the values obtained; stops
early if a pop blocks or returns the empty Optional. -/
def popAllFront {T : Type} (q : AsyncDeque T) : Nat → List T × AsyncDeque T
  | 0 => ([], q)
  | n + 1 =>
      match q.pop_front with
      | some (some x, q2, _) =>
          (x :: (popAllFront q2 n).1, (popAllFront q2 n).2)
      | _ => ([], q)

/-- Pops n times with `pop_back`, collecting the values obtained; stops
early if a pop blocks or returns the empty Optional. -/
def popAllBack {T : Type} (q : AsyncDeque T) : Nat → List T × AsyncDeque T
  | 0 => ([], q)
  | n + 1 =>
      match q.pop_back with
      | some (some x, q2, _) =>
          (x :: (popAllBack q2 n).1, (popAllBack q2 n).2)
      | _ => ([], q)

/-- Recognizes an `on_push_back` hook event. -/
def isPushBackEvent {T : Type} : HookEvent T → Bool
  | .onPushBack _ => true
  | _ => false

/-- Recognizes an `on_push_front` hook event. -/
def isPushFrontEvent {T : Type} : HookEvent T → Bool
  | .onPushFront _ => true
  | _ => false

/-- Recognizes an `on_pop_back` hook event. -/
def isPopBackEvent {T : Type} : HookEvent T → Bool
  | .onPopBack _ => true
  | _ => false

/-- Recognizes an `on_pop_front` hook event. -/
def isPopFrontEvent {T : Type} : HookEvent T → Bool
  | .onPopFront _ => true
  | _ => false

/-- Recognizes an `on_close` hook event. -/
def isCloseEvent {T : Type} : HookEvent T → Bool
  | .onClose => true
  | _ => false

/-- Recognizes a completed back-push that returned true. -/
def succPushBack {T : Type} : Op T × OpResult T → Bool
  | (.pushBack _, .pushRes true) => true
  | (.tryPushBack _, .pushRes true) => true
  | _ => false

/-- Recognizes a completed front-push that returned true. -/
def succPushFront {T : Type} : Op T × OpResult T → Bool
  | (.pushFront _, .pushRes true) => true
  | (.tryPushFront _, .pushRes true) => true
  | _ => false

/-- Recognizes a completed back-pop that returned an item. -/
def succPopBack {T : Type} : Op T × OpResult T → Bool
  | (.popBack, .popRes (some _)) => true
  | (.tryPopBack, .popRes (some _)) => true
  | _ => false

/-- Recognizes a completed front-pop that returned an item. -/
def succPopFront {T : Type} : Op T × OpResult T → Bool
  | (.popFront, .popRes (some _)) => true
  | (.tryPopFront, .popRes (some _)) => true
  | _ => false

/-- C4: move-assignment between two distinct queues whose capacities differ
is a no-op: the target's items, closed flag and capacity are all unchanged,
and the source is left unchanged (hence still usable). -/
theorem moveAssign_capacity_mismatch_noop {T : Type} (target source : AsyncDeque T)
    (h : target.capacity_ ≠ source.capacity_) :
    AsyncDeque.moveAssign false target source = (target, source) := by
  unfold AsyncDeque.moveAssign
  simp [h]

/-- Witness for C4 at capacities 5 and 10. -/
theorem moveAssign_capacity_mismatch_noop_witness :
    (⟨[1], false, 5⟩ : AsyncDeque Nat).capacity_ ≠ (⟨[2], true, 10⟩ : AsyncDeque Nat).capacity_ ∧
    AsyncDeque.moveAssign false (⟨[1], false, 5⟩ : AsyncDeque Nat) ⟨[2], true, 10⟩ =
      (⟨[1], false, 5⟩, ⟨[2], true, 10⟩) :=
  ⟨by decide, moveAssign_capacity_mismatch_noop _ _ (by decide)⟩

/-- C5 counterexample: move-constructing from a closed source leaves the
source closed, refuting the claim that the moved-from source is always open
(closed == false) afterwards. -/
theorem moveConstruct_source_not_always_open :
    ¬ ((AsyncDeque.moveConstruct (⟨[], true, 1⟩ : AsyncDeque Nat)).2.closed_ = false) := by
  decide

/-- C5 (amended): move-construction transfers the source's buffer, closed
flag and capacity into the new queue, and afterwards the source is empty
with its closed flag and capacity unchanged (so it is open only if it was
open before the move). -/
theorem moveConstruct_spec {T : Type} (source : AsyncDeque T) :
    (AsyncDeque.moveConstruct source).1 =
      ⟨source.deque_, source.closed_, source.capacity_⟩ ∧
    (AsyncDeque.moveConstruct source).2 = ⟨[], source.closed_, source.capacity_⟩ :=
  ⟨rfl, rfl⟩

/-- C10: self-move-assignment (pointer equality holds) is a no-op: the
queue's items, closed flag and capacity are unchanged. -/
theorem moveAssign_self_noop {T : Type} (q : AsyncDeque T) :
    AsyncDeque.moveAssign true q q = (q, q) := by
  unfold AsyncDeque.moveAssign
  simp

theorem push_back_cases {T : Type} (q : AsyncDeque T) (x : T) :
    (q.closed_ = true ∧ q.push_back x = some (false, q, [])) ∨
    (q.closed_ = false ∧ q.deque_.length < q.capacity_ ∧
      q.push_back x =
        some (true, ⟨q.deque_ ++ [x], q.closed_, q.capacity_⟩, [HookEvent.onPushBack x])) ∨
    (q.closed_ = false ∧ ¬ q.deque_.length < q.capacity_ ∧ q.push_back x = none) := by
  by_cases hc : q.closed_ = true
  · exact Or.inl ⟨hc, by simp [AsyncDeque.push_back, hc]⟩
  · have hc2 : q.closed_ = false := by simpa using hc
    by_cases hl : q.deque_.length < q.capacity_
    · exact Or.inr (Or.inl ⟨hc2, hl, by simp [AsyncDeque.push_back, hc2, hl]⟩)
    · exact Or.inr (Or.inr ⟨hc2, hl, by simp [AsyncDeque.push_back, hc2, hl]⟩)

theorem push_front_cases {T : Type} (q : AsyncDeque T) (x : T) :
    (q.closed_ = true ∧ q.push_front x = some (false, q, [])) ∨
    (q.closed_ = false ∧ q.deque_.length < q.capacity_ ∧
      q.push_front x =
        some (true, ⟨x :: q.deque_, q.closed_, q.capacity_⟩, [HookEvent.onPushFront x])) ∨
    (q.closed_ = false ∧ ¬ q.deque_.length < q.capacity_ ∧ q.push_front x = none) := by
  by_cases hc : q.closed_ = true
  · exact Or.inl ⟨hc, by simp [AsyncDeque.push_front, hc]⟩
  · have hc2 : q.closed_ = false := by simpa using hc
    by_cases hl : q.deque_.length < q.capacity_
    · exact Or.inr (Or.inl ⟨hc2, hl, by simp [AsyncDeque.push_front, hc2, hl]⟩)
    · exact Or.inr (Or.inr ⟨hc2, hl, by simp [AsyncDeque.push_front, hc2, hl]⟩)

theorem try_push_back_cases {T : Type} (q : AsyncDeque T) (x : T) :
    (q.closed_ = true ∧ q.try_push_back x = (false, q, [])) ∨
    (q.closed_ = false ∧ q.deque_.length < q.capacity_ ∧
      q.try_push_back x =
        (true, ⟨q.deque_ ++ [x], q.closed_, q.capacity_⟩, [HookEvent.onPushBack x])) ∨
    (q.closed_ = false ∧ ¬ q.deque_.length < q.capacity_ ∧ q.try_push_back x = (false, q, [])) := by
  by_cases hc : q.closed_ = true
  · exact Or.inl ⟨hc, by simp [AsyncDeque.try_push_back, hc]⟩
  · have hc2 : q.closed_ = false := by simpa using hc
    by_cases hl : q.deque_.length < q.capacity_
    · exact Or.inr (Or.inl ⟨hc2, hl, by simp [AsyncDeque.try_push_back, hc2, hl]⟩)
    · exact Or.inr (Or.inr ⟨hc2, hl, by simp [AsyncDeque.try_push_back, hc2, hl]⟩)

theorem try_push_front_cases {T : Type} (q : AsyncDeque T) (x : T) :
    (q.closed_ = true ∧ q.try_push_front x = (false, q, [])) ∨
    (q.closed_ = false ∧ q.deque_.length < q.capacity_ ∧
      q.try_push_front x =
        (true, ⟨x :: q.deque_, q.closed_, q.capacity_⟩, [HookEvent.onPushFront x])) ∨
    (q.closed_ = false ∧ ¬ q.deque_.length < q.capacity_ ∧ q.try_push_front x = (false, q, [])) := by
  by_cases hc : q.closed_ = true
  · exact Or.inl ⟨hc, by simp [AsyncDeque.try_push_front, hc]⟩
  · have hc2 : q.closed_ = false := by simpa using hc
    by_cases hl : q.deque_.length < q.capacity_
    · exact Or.inr (Or.inl ⟨hc2, hl, by simp [AsyncDeque.try_push_front, hc2, hl]⟩)
    · exact Or.inr (Or.inr ⟨hc2, hl, by simp [AsyncDeque.try_push_front, hc2, hl]⟩)

theorem pop_front_cases {T : Type} (q : AsyncDeque T) :
    (q.deque_ = [] ∧ q.closed_ = true ∧ q.pop_front = some (none, q, [])) ∨
    (q.deque_ = [] ∧ q.closed_ = false ∧ q.pop_front = none) ∨
    (∃ x rest, q.deque_ = x :: rest ∧
      q.pop_front = some (some x, ⟨rest, q.closed_, q.capacity_⟩, [HookEvent.onPopFront x])) := by
  rcases hd : q.deque_ with _ | ⟨x, rest⟩
  · by_cases hc : q.closed_ = true
    · exact Or.inl ⟨rfl, hc, by simp [AsyncDeque.pop_front, hd, hc]⟩
    · have hc2 : q.closed_ = false := by simpa using hc
      exact Or.inr (Or.inl ⟨rfl, hc2, by simp [AsyncDeque.pop_front, hd, hc2]⟩)
  · exact Or.inr (Or.inr ⟨x, rest, rfl, by simp [AsyncDeque.pop_front, hd]⟩)

theorem pop_back_cases {T : Type} (q : AsyncDeque T) :
    (q.deque_ = [] ∧ q.closed_ = true ∧ q.pop_back = some (none, q, [])) ∨
    (q.deque_ = [] ∧ q.closed_ = false ∧ q.pop_back = none) ∨
    (∃ ys y, q.deque_ = ys ++ [y] ∧
      q.pop_back = some (some y, ⟨ys, q.closed_, q.capacity_⟩, [HookEvent.onPopBack y])) := by
  rcases q.deque_.eq_nil_or_concat with hd | ⟨ys, y, hd⟩
  · by_cases hc : q.closed_ = true
    · exact Or.inl ⟨hd, hc, by simp [AsyncDeque.pop_back, hd, hc]⟩
    · have hc2 : q.closed_ = false := by simpa using hc
      exact Or.inr (Or.inl ⟨hd, hc2, by simp [AsyncDeque.pop_back, hd, hc2]⟩)
  · rw [List.concat_eq_append] at hd
    exact Or.inr (Or.inr ⟨ys, y, hd, by
      simp [AsyncDeque.pop_back, hd, List.getLast?_concat, List.dropLast_concat]⟩)

theorem try_pop_front_cases {T : Type} (q : AsyncDeque T) :
    (q.deque_ = [] ∧ q.try_pop_front = (none, q, [])) ∨
    (∃ x rest, q.deque_ = x :: rest ∧
      q.try_pop_front = (some x, ⟨rest, q.closed_, q.capacity_⟩, [HookEvent.onPopFront x])) := by
  rcases hd : q.deque_ with _ | ⟨x, rest⟩
  · exact Or.inl ⟨rfl, by simp [AsyncDeque.try_pop_front, hd]⟩
  · exact Or.inr ⟨x, rest, rfl, by simp [AsyncDeque.try_pop_front, hd]⟩

theorem try_pop_back_cases {T : Type} (q : AsyncDeque T) :
    (q.deque_ = [] ∧ q.try_pop_back = (none, q, [])) ∨
    (∃ ys y, q.deque_ = ys ++ [y] ∧
      q.try_pop_back = (some y, ⟨ys, q.closed_, q.capacity_⟩, [HookEvent.onPopBack y])) := by
  rcases q.deque_.eq_nil_or_concat with hd | ⟨ys, y, hd⟩
  · exact Or.inl ⟨hd, by simp [AsyncDeque.try_pop_back, hd]⟩
  · rw [List.concat_eq_append] at hd
    exact Or.inr ⟨ys, y, hd, by
      simp [AsyncDeque.try_pop_back, hd, List.getLast?_concat, List.dropLast_concat]⟩

theorem close_cases {T : Type} (q : AsyncDeque T) :
    (q.closed_ = true ∧ q.close = (q, [])) ∨
    (q.closed_ = false ∧
      q.close = (⟨q.deque_, true, q.capacity_⟩, [HookEvent.onClose])) := by
  by_cases hc : q.closed_ = true
  · exact Or.inl ⟨hc, by simp [AsyncDeque.close, hc]⟩
  · have hc2 : q.closed_ = false := by simpa using hc
    exact Or.inr ⟨hc2, by simp [AsyncDeque.close, hc2]⟩

theorem step_capacity_eq {T : Type} (q : AsyncDeque T) (op : Op T) :
    (step q op).2.1.capacity_ = q.capacity_ := by
  cases op with
  | pushBack x =>
      rcases push_back_cases q x with ⟨hc, h⟩ | ⟨hc, hl, h⟩ | ⟨hc, hl, h⟩ <;> simp [step, h]
  | pushFront x =>
      rcases push_front_cases q x with ⟨hc, h⟩ | ⟨hc, hl, h⟩ | ⟨hc, hl, h⟩ <;> simp [step, h]
  | tryPushBack x =>
      rcases try_push_back_cases q x with ⟨hc, h⟩ | ⟨hc, hl, h⟩ | ⟨hc, hl, h⟩ <;> simp [step, h]
  | tryPushFront x =>
      rcases try_push_front_cases q x with ⟨hc, h⟩ | ⟨hc, hl, h⟩ | ⟨hc, hl, h⟩ <;> simp [step, h]
  | popBack =>
      rcases pop_back_cases q with ⟨hd, hc, h⟩ | ⟨hd, hc, h⟩ | ⟨ys, y, hd, h⟩ <;> simp [step, h]
  | popFront =>
      rcases pop_front_cases q with ⟨hd, hc, h⟩ | ⟨hd, hc, h⟩ | ⟨x, rest, hd, h⟩ <;> simp [step, h]
  | tryPopBack =>
      rcases try_pop_back_cases q with ⟨hd, h⟩ | ⟨ys, y, hd, h⟩ <;> simp [step, h]
  | tryPopFront =>
      rcases try_pop_front_cases q with ⟨hd, h⟩ | ⟨x, rest, hd, h⟩ <;> simp [step, h]
  | close =>
      rcases close_cases q with ⟨hc, h⟩ | ⟨hc, h⟩ <;> simp [step, h]
  | sizeOp => rfl
  | emptyOp => rfl
  | capacityOp => rfl
  | isClosedOp => rfl
  | moveAssignFrom p s =>
      by_cases hcond : p = false ∧ q.capacity_ = s.capacity_ <;>
        simp [step, AsyncDeque.moveAssign, hcond]
  | movedFromByAssign p t =>
      by_cases hcond : p = false ∧ t.capacity_ = q.capacity_ <;>
        simp [step, AsyncDeque.moveAssign, hcond]
  | movedFromByConstruct => rfl

theorem step_closed_preserved {T : Type} (q : AsyncDeque T) (op : Op T)
    (hmv : isMoveAssignTarget op = false) (hcl : op ≠ Op.close) :
    (step q op).2.1.closed_ = q.closed_ := by
  cases op with
  | pushBack x =>
      rcases push_back_cases q x with ⟨hc, h⟩ | ⟨hc, hl, h⟩ | ⟨hc, hl, h⟩ <;> simp [step, h]
  | pushFront x =>
      rcases push_front_cases q x with ⟨hc, h⟩ | ⟨hc, hl, h⟩ | ⟨hc, hl, h⟩ <;> simp [step, h]
  | tryPushBack x =>
      rcases try_push_back_cases q x with ⟨hc, h⟩ | ⟨hc, hl, h⟩ | ⟨hc, hl, h⟩ <;> simp [step, h]
  | tryPushFront x =>
      rcases try_push_front_cases q x with ⟨hc, h⟩ | ⟨hc, hl, h⟩ | ⟨hc, hl, h⟩ <;> simp [step, h]
  | popBack =>
      rcases pop_back_cases q with ⟨hd, hc, h⟩ | ⟨hd, hc, h⟩ | ⟨ys, y, hd, h⟩ <;> simp [step, h]
  | popFront =>
      rcases pop_front_cases q with ⟨hd, hc, h⟩ | ⟨hd, hc, h⟩ | ⟨x, rest, hd, h⟩ <;> simp [step, h]
  | tryPopBack =>
      rcases try_pop_back_cases q with ⟨hd, h⟩ | ⟨ys, y, hd, h⟩ <;> simp [step, h]
  | tryPopFront =>
      rcases try_pop_front_cases q with ⟨hd, h⟩ | ⟨x, rest, hd, h⟩ <;> simp [step, h]
  | close => exact absurd rfl hcl
  | sizeOp => rfl
  | emptyOp => rfl
  | capacityOp => rfl
  | isClosedOp => rfl
  | moveAssignFrom p s => simp [isMoveAssignTarget] at hmv
  | movedFromByAssign p t =>
      by_cases hcond : p = false ∧ t.capacity_ = q.capacity_ <;>
        simp [step, AsyncDeque.moveAssign, hcond]
  | movedFromByConstruct => rfl

theorem step_close_closed {T : Type} (q : AsyncDeque T) :
    (step q Op.close).2.1.closed_ = true := by
  rcases close_cases q with ⟨hc, h⟩ | ⟨hc, h⟩ <;> simp [step, h, hc]

theorem step_length_le {T : Type} (q : AsyncDeque T) (op : Op T)
    (hwf : OpSourcesWF op) (hq : q.deque_.length ≤ q.capacity_) :
    (step q op).2.1.deque_.length ≤ (step q op).2.1.capacity_ := by
  cases op with
  | pushBack x =>
      rcases push_back_cases q x with ⟨hc, h⟩ | ⟨hc, hl, h⟩ | ⟨hc, hl, h⟩ <;>
        simp [step, h] <;> omega
  | pushFront x =>
      rcases push_front_cases q x with ⟨hc, h⟩ | ⟨hc, hl, h⟩ | ⟨hc, hl, h⟩ <;>
        simp [step, h] <;> omega
  | tryPushBack x =>
      rcases try_push_back_cases q x with ⟨hc, h⟩ | ⟨hc, hl, h⟩ | ⟨hc, hl, h⟩ <;>
        simp [step, h] <;> omega
  | tryPushFront x =>
      rcases try_push_front_cases q x with ⟨hc, h⟩ | ⟨hc, hl, h⟩ | ⟨hc, hl, h⟩ <;>
        simp [step, h] <;> omega
  | popBack =>
      rcases pop_back_cases q with ⟨hd, hc, h⟩ | ⟨hd, hc, h⟩ | ⟨ys, y, hd, h⟩
      · simp only [step, h]
        exact hq
      · simp only [step, h]
        exact hq
      · rw [hd] at hq
        simp [List.length_append] at hq
        simp [step, h]
        omega
  | popFront =>
      rcases pop_front_cases q with ⟨hd, hc, h⟩ | ⟨hd, hc, h⟩ | ⟨x, rest, hd, h⟩
      · simp only [step, h]
        exact hq
      · simp only [step, h]
        exact hq
      · rw [hd] at hq
        simp at hq
        simp [step, h]
        omega
  | tryPopBack =>
      rcases try_pop_back_cases q with ⟨hd, h⟩ | ⟨ys, y, hd, h⟩
      · simp only [step, h]
        exact hq
      · rw [hd] at hq
        simp [List.length_append] at hq
        simp [step, h]
        omega
  | tryPopFront =>
      rcases try_pop_front_cases q with ⟨hd, h⟩ | ⟨x, rest, hd, h⟩
      · simp only [step, h]
        exact hq
      · rw [hd] at hq
        simp at hq
        simp [step, h]
        omega
  | close =>
      rcases close_cases q with ⟨hc, h⟩ | ⟨hc, h⟩ <;> simp [step, h] <;> omega
  | sizeOp => exact hq
  | emptyOp => exact hq
  | capacityOp => exact hq
  | isClosedOp => exact hq
  | moveAssignFrom p s =>
      have hwf2 : s.deque_.length ≤ s.capacity_ := hwf
      by_cases hcond : p = false ∧ q.capacity_ = s.capacity_
      · obtain ⟨hp, hcap⟩ := hcond
        simp [step, AsyncDeque.moveAssign, hp, hcap]
        omega
      · simp [step, AsyncDeque.moveAssign, hcond]
        exact hq
  | movedFromByAssign p t =>
      by_cases hcond : p = false ∧ t.capacity_ = q.capacity_ <;>
        simp [step, AsyncDeque.moveAssign, hcond] <;> omega
  | movedFromByConstruct => simp [step, AsyncDeque.moveConstruct]

theorem isPushPop_not_moveAssignTarget {T : Type} (op : Op T) (h : isPushPop op = true) :
    isMoveAssignTarget op = false := by
  cases op <;> simp_all [isPushPop, isMoveAssignTarget]

theorem isPushPop_ne_close {T : Type} (op : Op T) (h : isPushPop op = true) :
    op ≠ Op.close := by
  cases op <;> simp_all [isPushPop]

theorem isPushPopClose_cases {T : Type} (op : Op T) (h : isPushPopClose op = true) :
    op = Op.close ∨ isPushPop op = true := by
  cases op <;> simp_all [isPushPopClose, isPushPop]

theorem isPushPop_not_closeOp {T : Type} (op : Op T) (h : isPushPop op = true) :
    isCloseOp op = false := by
  cases op <;> simp_all [isPushPop, isCloseOp]

theorem step_closed_queue {T : Type} (q : AsyncDeque T) (op : Op T)
    (hc : q.closed_ = true) (hop : isPushPop op = true) :
    ClosedQueueStep q op (step q op).1 (step q op).2.1 := by
  cases op with
  | pushBack x =>
      rcases push_back_cases q x with ⟨h1, h⟩ | ⟨h1, hl, h⟩ | ⟨h1, hl, h⟩
      · simp [ClosedQueueStep, step, h]
      · simp [h1] at hc
      · simp [h1] at hc
  | pushFront x =>
      rcases push_front_cases q x with ⟨h1, h⟩ | ⟨h1, hl, h⟩ | ⟨h1, hl, h⟩
      · simp [ClosedQueueStep, step, h]
      · simp [h1] at hc
      · simp [h1] at hc
  | tryPushBack x =>
      rcases try_push_back_cases q x with ⟨h1, h⟩ | ⟨h1, hl, h⟩ | ⟨h1, hl, h⟩
      · simp [ClosedQueueStep, step, h]
      · simp [h1] at hc
      · simp [h1] at hc
  | tryPushFront x =>
      rcases try_push_front_cases q x with ⟨h1, h⟩ | ⟨h1, hl, h⟩ | ⟨h1, hl, h⟩
      · simp [ClosedQueueStep, step, h]
      · simp [h1] at hc
      · simp [h1] at hc
  | popBack =>
      rcases pop_back_cases q with ⟨hd, h1, h⟩ | ⟨hd, h1, h⟩ | ⟨ys, y, hd, h⟩
      · simp [ClosedQueueStep, step, h, hd]
      · simp [h1] at hc
      · simp [ClosedQueueStep, step, h, hd, List.getLast?_concat]
  | popFront =>
      rcases pop_front_cases q with ⟨hd, h1, h⟩ | ⟨hd, h1, h⟩ | ⟨x, rest, hd, h⟩
      · simp [ClosedQueueStep, step, h, hd]
      · simp [h1] at hc
      · simp [ClosedQueueStep, step, h, hd]
  | tryPopBack =>
      rcases try_pop_back_cases q with ⟨hd, h⟩ | ⟨ys, y, hd, h⟩
      · simp [ClosedQueueStep, step, h, hd]
      · simp [ClosedQueueStep, step, h, hd, List.getLast?_concat]
  | tryPopFront =>
      rcases try_pop_front_cases q with ⟨hd, h⟩ | ⟨x, rest, hd, h⟩
      · simp [ClosedQueueStep, step, h, hd]
      · simp [ClosedQueueStep, step, h, hd]
  | close => simp [isPushPop] at hop
  | sizeOp => simp [isPushPop] at hop
  | emptyOp => simp [isPushPop] at hop
  | capacityOp => simp [isPushPop] at hop
  | isClosedOp => simp [isPushPop] at hop
  | moveAssignFrom p s => simp [isPushPop] at hop
  | movedFromByAssign p t => simp [isPushPop] at hop
  | movedFromByConstruct => simp [isPushPop] at hop

theorem step_counts {T : Type} (q : AsyncDeque T) (op : Op T) :
    (step q op).2.2.countP isPushBackEvent =
      (if succPushBack (op, (step q op).1) = true then 1 else 0) ∧
    (step q op).2.2.countP isPushFrontEvent =
      (if succPushFront (op, (step q op).1) = true then 1 else 0) ∧
    (step q op).2.2.countP isPopBackEvent =
      (if succPopBack (op, (step q op).1) = true then 1 else 0) ∧
    (step q op).2.2.countP isPopFrontEvent =
      (if succPopFront (op, (step q op).1) = true then 1 else 0) ∧
    (step q op).2.2.countP isCloseEvent =
      (if isCloseOp op = true ∧ q.closed_ = false then 1 else 0) := by
  cases op with
  | pushBack x =>
      rcases push_back_cases q x with ⟨h1, h⟩ | ⟨h1, hl, h⟩ | ⟨h1, hl, h⟩ <;>
        simp [step, h, h1, succPushBack, succPushFront, succPopBack, succPopFront, isCloseOp,
          isPushBackEvent, isPushFrontEvent, isPopBackEvent, isPopFrontEvent, isCloseEvent]
  | pushFront x =>
      rcases push_front_cases q x with ⟨h1, h⟩ | ⟨h1, hl, h⟩ | ⟨h1, hl, h⟩ <;>
        simp [step, h, h1, succPushBack, succPushFront, succPopBack, succPopFront, isCloseOp,
          isPushBackEvent, isPushFrontEvent, isPopBackEvent, isPopFrontEvent, isCloseEvent]
  | tryPushBack x =>
      rcases try_push_back_cases q x with ⟨h1, h⟩ | ⟨h1, hl, h⟩ | ⟨h1, hl, h⟩ <;>
        simp [step, h, h1, succPushBack, succPushFront, succPopBack, succPopFront, isCloseOp,
          isPushBackEvent, isPushFrontEvent, isPopBackEvent, isPopFrontEvent, isCloseEvent]
  | tryPushFront x =>
      rcases try_push_front_cases q x with ⟨h1, h⟩ | ⟨h1, hl, h⟩ | ⟨h1, hl, h⟩ <;>
        simp [step, h, h1, succPushBack, succPushFront, succPopBack, succPopFront, isCloseOp,
          isPushBackEvent, isPushFrontEvent, isPopBackEvent, isPopFrontEvent, isCloseEvent]
  | popBack =>
      rcases pop_back_cases q with ⟨hd, h1, h⟩ | ⟨hd, h1, h⟩ | ⟨ys, y, hd, h⟩ <;>
        simp [step, h, succPushBack, succPushFront, succPopBack, succPopFront, isCloseOp,
          isPushBackEvent, isPushFrontEvent, isPopBackEvent, isPopFrontEvent, isCloseEvent]
  | popFront =>
      rcases pop_front_cases q with ⟨hd, h1, h⟩ | ⟨hd, h1, h⟩ | ⟨x, rest, hd, h⟩ <;>
        simp [step, h, succPushBack, succPushFront, succPopBack, succPopFront, isCloseOp,
          isPushBackEvent, isPushFrontEvent, isPopBackEvent, isPopFrontEvent, isCloseEvent]
  | tryPopBack =>
      rcases try_pop_back_cases q with ⟨hd, h⟩ | ⟨ys, y, hd, h⟩ <;>
        simp [step, h, succPushBack, succPushFront, succPopBack, succPopFront, isCloseOp,
          isPushBackEvent, isPushFrontEvent, isPopBackEvent, isPopFrontEvent, isCloseEvent]
  | tryPopFront =>
      rcases try_pop_front_cases q with ⟨hd, h⟩ | ⟨x, rest, hd, h⟩ <;>
        simp [step, h, succPushBack, succPushFront, succPopBack, succPopFront, isCloseOp,
          isPushBackEvent, isPushFrontEvent, isPopBackEvent, isPopFrontEvent, isCloseEvent]
  | close =>
      rcases close_cases q with ⟨h1, h⟩ | ⟨h1, h⟩ <;>
        simp [step, h, h1, succPushBack, succPushFront, succPopBack, succPopFront, isCloseOp,
          isPushBackEvent, isPushFrontEvent, isPopBackEvent, isPopFrontEvent, isCloseEvent]
  | sizeOp =>
      simp [step, succPushBack, succPushFront, succPopBack, succPopFront, isCloseOp]
  | emptyOp =>
      simp [step, succPushBack, succPushFront, succPopBack, succPopFront, isCloseOp]
  | capacityOp =>
      simp [step, succPushBack, succPushFront, succPopBack, succPopFront, isCloseOp]
  | isClosedOp =>
      simp [step, succPushBack, succPushFront, succPopBack, succPopFront, isCloseOp]
  | moveAssignFrom p s =>
      simp [step, succPushBack, succPushFront, succPopBack, succPopFront, isCloseOp]
  | movedFromByAssign p t =>
      simp [step, succPushBack, succPushFront, succPopBack, succPopFront, isCloseOp]
  | movedFromByConstruct =>
      simp [step, succPushBack, succPushFront, succPopBack, succPopFront, isCloseOp]

theorem runTrace_countP_eq {T : Type} (p : HookEvent T → Bool) (f : Op T × OpResult T → Bool)
    (hstep : ∀ (q : AsyncDeque T) (op : Op T),
      (step q op).2.2.countP p = (if f (op, (step q op).1) = true then 1 else 0)) :
    ∀ (ops : List (Op T)) (q : AsyncDeque T),
      (runTrace q ops).2.countP p = (stepPairs q ops).countP f := by
  intro ops
  induction ops with
  | nil =>
      intro q
      simp [runTrace, stepPairs]
  | cons op rest ih =>
      intro q
      simp only [runTrace, stepPairs, List.countP_append, List.countP_cons]
      rw [hstep q op, ih ((step q op).2.1)]
      omega

theorem runTrace_close_count {T : Type} :
    ∀ (ops : List (Op T)) (q : AsyncDeque T), (∀ op ∈ ops, isPushPopClose op = true) →
      (runTrace q ops).2.countP isCloseEvent =
        (if q.closed_ = true then 0 else if ops.any isCloseOp = true then 1 else 0) := by
  intro ops
  induction ops with
  | nil =>
      intro q h
      simp [runTrace]
  | cons op rest ih =>
      intro q h
      have hop : isPushPopClose op = true := h op (List.mem_cons_self op rest)
      have hrest : ∀ o ∈ rest, isPushPopClose o = true :=
        fun o ho => h o (List.mem_cons_of_mem op ho)
      have hcount := (step_counts q op).2.2.2.2
      rcases isPushPopClose_cases op hop with rfl | hpp
      · have h2 : (step q Op.close).2.1.closed_ = true := step_close_closed q
        have h3 := ih (step q Op.close).2.1 hrest
        rw [h2] at h3
        simp only [if_pos] at h3
        simp [runTrace, List.countP_append, hcount, h3, isCloseOp, List.any_cons]
        cases hq : q.closed_ <;> simp [hq]
      · have hne := isPushPop_ne_close op hpp
        have hmv := isPushPop_not_moveAssignTarget op hpp
        have hcl := step_closed_preserved q op hmv hne
        have hco := isPushPop_not_closeOp op hpp
        have h3 := ih (step q op).2.1 hrest
        rw [hcl] at h3
        simp [runTrace, List.countP_append, hcount, h3, hco, List.any_cons]

theorem trace_inv {T : Type} :
    ∀ (ops : List (Op T)) (q : AsyncDeque T), (∀ op ∈ ops, OpSourcesWF op) →
      q.deque_.length ≤ q.capacity_ →
      ∀ s ∈ trace q ops, s.deque_.length ≤ s.capacity_ ∧ s.capacity_ = q.capacity_ := by
  intro ops
  induction ops with
  | nil =>
      intro q hwf hq s hs
      simp [trace] at hs
      subst hs
      exact ⟨hq, rfl⟩
  | cons op rest ih =>
      intro q hwf hq s hs
      simp only [trace, List.mem_cons] at hs
      rcases hs with rfl | hs
      · exact ⟨hq, rfl⟩
      · have hwfop := hwf op (List.mem_cons_self op rest)
        have h1 := step_length_le q op hwfop hq
        have h2 := step_capacity_eq q op
        obtain ⟨ha, hb⟩ := ih (step q op).2.1
          (fun o ho => hwf o (List.mem_cons_of_mem op ho)) h1 s hs
        exact ⟨ha, by rw [hb, h2]⟩

theorem trace_closed_stays {T : Type} :
    ∀ (ops : List (Op T)) (q : AsyncDeque T),
      (∀ op ∈ ops, isMoveAssignTarget op = false) → q.closed_ = true →
      ∀ s ∈ trace q ops, s.closed_ = true := by
  intro ops
  induction ops with
  | nil =>
      intro q h hc s hs
      simp [trace] at hs
      subst hs
      exact hc
  | cons op rest ih =>
      intro q h hc s hs
      simp only [trace, List.mem_cons] at hs
      rcases hs with rfl | hs
      · exact hc
      · have hop := h op (List.mem_cons_self op rest)
        have hc2 : (step q op).2.1.closed_ = true := by
          by_cases hcl : op = Op.close
          · subst hcl
            exact step_close_closed q
          · rw [step_closed_preserved q op hop hcl]
            exact hc
        exact ih (step q op).2.1 (fun o ho => h o (List.mem_cons_of_mem op ho)) hc2 s hs

theorem steps_closed_monotone {T : Type} :
    ∀ (ops : List (Op T)) (q : AsyncDeque T),
      (∀ op ∈ ops, isMoveAssignTarget op = false) →
      StepsSatisfy q ops ClosedMonotoneStep := by
  intro ops
  induction ops with
  | nil =>
      intro q h
      exact trivial
  | cons op rest ih =>
      intro q h
      have hop := h op (List.mem_cons_self op rest)
      refine ⟨⟨?_, ?_⟩, ih (step q op).2.1 (fun o ho => h o (List.mem_cons_of_mem op ho))⟩
      · intro hc
        by_cases hcl : op = Op.close
        · subst hcl
          exact step_close_closed q
        · rw [step_closed_preserved q op hop hcl]
          exact hc
      · intro hne
        by_cases hcl : op = Op.close
        · subst hcl
          refine ⟨rfl, ?_, step_close_closed q⟩
          cases hq : q.closed_
          · rfl
          · exact absurd (by rw [step_close_closed q, hq]) hne
        · exact absurd (step_closed_preserved q op hop hcl).symm hne

theorem trace_closed_pairwise {T : Type} :
    ∀ (ops : List (Op T)) (q : AsyncDeque T),
      (∀ op ∈ ops, isMoveAssignTarget op = false) →
      ((trace q ops).map (fun s => s.closed_)).Pairwise (fun a b => a = true → b = true) := by
  intro ops
  induction ops with
  | nil =>
      intro q h
      simp [trace]
  | cons op rest ih =>
      intro q h
      simp only [trace, List.map_cons, List.pairwise_cons]
      constructor
      · intro b hb hq
        simp only [List.mem_map] at hb
        obtain ⟨s, hs, rfl⟩ := hb
        have hq2 : (step q op).2.1.closed_ = true := by
          have hop := h op (List.mem_cons_self op rest)
          by_cases hcl : op = Op.close
          · subst hcl
            exact step_close_closed q
          · rw [step_closed_preserved q op hop hcl]
            exact hq
        exact trace_closed_stays rest (step q op).2.1
          (fun o ho => h o (List.mem_cons_of_mem op ho)) hq2 s hs
      · exact ih (step q op).2.1 (fun o ho => h o (List.mem_cons_of_mem op ho))

theorem steps_closed_queue {T : Type} :
    ∀ (ops : List (Op T)) (q : AsyncDeque T), q.closed_ = true →
      (∀ op ∈ ops, isPushPop op = true) → StepsSatisfy q ops ClosedQueueStep := by
  intro ops
  induction ops with
  | nil =>
      intro q hc h
      exact trivial
  | cons op rest ih =>
      intro q hc h
      have hop := h op (List.mem_cons_self op rest)
      refine ⟨step_closed_queue q op hc hop, ?_⟩
      have hc2 : (step q op).2.1.closed_ = true := by
        rw [step_closed_preserved q op (isPushPop_not_moveAssignTarget op hop)
          (isPushPop_ne_close op hop)]
        exact hc
      exact ih (step q op).2.1 hc2 (fun o ho => h o (List.mem_cons_of_mem op ho))

theorem pushAllBack_spec {T : Type} :
    ∀ (xs : List T) (q : AsyncDeque T), q.closed_ = false →
      q.deque_.length + xs.length ≤ q.capacity_ →
      pushAllBack q xs = some ⟨q.deque_ ++ xs, false, q.capacity_⟩ := by
  intro xs
  induction xs with
  | nil =>
      intro q hc hl
      obtain ⟨d, c, cap⟩ := q
      simp at hc
      subst hc
      simp [pushAllBack]
  | cons x rest ih =>
      intro q hc hl
      have hlt : q.deque_.length < q.capacity_ := by
        simp at hl
        omega
      have hp : q.push_back x =
          some (true, ⟨q.deque_ ++ [x], q.closed_, q.capacity_⟩, [HookEvent.onPushBack x]) := by
        rcases push_back_cases q x with ⟨h1, h⟩ | ⟨h1, hl2, h⟩ | ⟨h1, hl2, h⟩
        · rw [h1] at hc
          exact absurd hc (by simp)
        · exact h
        · exact absurd hlt hl2
      have h2 := ih ⟨q.deque_ ++ [x], q.closed_, q.capacity_⟩ hc
        (by simp [List.length_append] at hl ⊢; omega)
      simp only [pushAllBack, hp, h2]
      simp

theorem popAllFront_spec {T : Type} :
    ∀ (xs : List T) (q : AsyncDeque T), q.deque_ = xs →
      popAllFront q xs.length = (xs, ⟨[], q.closed_, q.capacity_⟩) := by
  intro xs
  induction xs with
  | nil =>
      intro q hd
      obtain ⟨d, c, cap⟩ := q
      simp at hd
      subst hd
      simp [popAllFront]
  | cons x rest ih =>
      intro q hd
      have hp : q.pop_front =
          some (some x, ⟨rest, q.closed_, q.capacity_⟩, [HookEvent.onPopFront x]) := by
        simp [AsyncDeque.pop_front, hd]
      have h2 := ih ⟨rest, q.closed_, q.capacity_⟩ rfl
      simp only [List.length_cons, popAllFront, hp, h2]

theorem popAllBack_spec {T : Type} :
    ∀ (n : Nat) (q : AsyncDeque T), q.deque_.length = n →
      popAllBack q n = (q.deque_.reverse, ⟨[], q.closed_, q.capacity_⟩) := by
  intro n
  induction n with
  | zero =>
      intro q hd
      rw [List.length_eq_zero] at hd
      obtain ⟨d, c, cap⟩ := q
      simp at hd
      subst hd
      simp [popAllBack]
  | succ n ih =>
      intro q hd
      rcases q.deque_.eq_nil_or_concat with h0 | ⟨ys, y, hys⟩
      · rw [h0] at hd
        simp at hd
      · rw [List.concat_eq_append] at hys
        have hp : q.pop_back =
            some (some y, ⟨ys, q.closed_, q.capacity_⟩, [HookEvent.onPopBack y]) := by
          simp [AsyncDeque.pop_back, hys, List.getLast?_concat, List.dropLast_concat]
        have hlen : ys.length = n := by
          rw [hys] at hd
          simp [List.length_append] at hd
          omega
        have h2 := ih ⟨ys, q.closed_, q.capacity_⟩ hlen
        simp only [popAllBack, hp, h2]
        rw [hys]
        simp [List.reverse_append]

theorem closeN_closed {T : Type} :
    ∀ (n : Nat) (q : AsyncDeque T), q.closed_ = true → closeN q n = (q, []) := by
  intro n
  induction n with
  | zero =>
      intro q hc
      rfl
  | succ n ih =>
      intro q hc
      have h : q.close = (q, []) := by
        rcases close_cases q with ⟨h1, h⟩ | ⟨h1, h⟩
        · exact h
        · rw [h1] at hc
          exact absurd hc (by simp)
      simp only [closeN, h]
      rw [ih q hc]
      simp

/-- C1 counterexample: the claim includes move-assignment among the public
operations, but operator= (header lines 169-176) copies the source's closed
flag into the target.  Starting from two freshly constructed queues of
capacity 2, closing the first and then move-assigning the (still open)
second into it makes its closed flag go false, true, false along the trace:
closed does become false again after having been true. -/
theorem closed_flag_monotone_counterexample :
    (trace (AsyncDeque.new Nat 2)
        [Op.close, Op.moveAssignFrom false (AsyncDeque.new Nat 2)]).map
      (fun s => s.closed_) = [false, true, false] := by
  decide

/-- C1 (amended): for every queue and every sequence of public operations
that does not make the queue the target of a move-assignment, the closed
flag is monotone across all observed states (once true it never becomes
false again), and it changes at most once, from false to true, only at a
close() step.  Move-assignment must be excluded because operator=
overwrites the target's closed flag with the source's. -/
theorem closed_flag_monotone {T : Type} (q : AsyncDeque T) (ops : List (Op T))
    (h : ∀ op ∈ ops, isMoveAssignTarget op = false) :
    ((trace q ops).map (fun s => s.closed_)).Pairwise (fun a b => a = true → b = true) ∧
    StepsSatisfy q ops ClosedMonotoneStep :=
  ⟨trace_closed_pairwise ops q h, steps_closed_monotone ops q h⟩

/-- Witness for C1 on a concrete push-close-pop trace. -/
theorem closed_flag_monotone_witness :
    (∀ op ∈ ([Op.pushBack 1, Op.close, Op.popFront, Op.popFront] : List (Op Nat)),
      isMoveAssignTarget op = false) ∧
    (((trace (AsyncDeque.new Nat 2)
          [Op.pushBack 1, Op.close, Op.popFront, Op.popFront]).map
        (fun s => s.closed_)).Pairwise (fun a b => a = true → b = true) ∧
      StepsSatisfy (AsyncDeque.new Nat 2) [Op.pushBack 1, Op.close, Op.popFront, Op.popFront]
        ClosedMonotoneStep) :=
  ⟨by decide, closed_flag_monotone _ _ (by decide)⟩

/-- C2: once the queue is closed, along any further sequence of push and
pop operations every push (blocking or try variant) completes immediately
with result false and unchanged state, and every pop (blocking or try
variant) completes immediately, returning the item removed from its end
when the queue is non-empty and the empty Optional when it is empty; no
call blocks. -/
theorem closed_queue_behavior {T : Type} (q : AsyncDeque T) (ops : List (Op T))
    (hc : q.closed_ = true) (h : ∀ op ∈ ops, isPushPop op = true) :
    StepsSatisfy q ops ClosedQueueStep :=
  steps_closed_queue ops q hc h

/-- Witness for C2: close a queue holding [1, 2], then push and drain. -/
theorem closed_queue_behavior_witness :
    ((runTrace (AsyncDeque.new Nat 3) [Op.pushBack 1, Op.pushBack 2, Op.close]).1.closed_ =
        true ∧
      (∀ op ∈ ([Op.pushBack 7, Op.popFront, Op.popFront, Op.popFront, Op.tryPopBack] :
          List (Op Nat)), isPushPop op = true)) ∧
    StepsSatisfy (runTrace (AsyncDeque.new Nat 3) [Op.pushBack 1, Op.pushBack 2, Op.close]).1
      [Op.pushBack 7, Op.popFront, Op.popFront, Op.popFront, Op.tryPopBack] ClosedQueueStep :=
  ⟨⟨by decide, by decide⟩, closed_queue_behavior _ _ (by decide) (by decide)⟩

/-- C3: starting from a freshly constructed queue of capacity c, along any
sequence of public operations (whose embedded move-assignment sources are
themselves well-formed queues) every observed state satisfies
0 ≤ size() ≤ capacity(), and capacity() stays equal to the value c fixed at
construction. -/
theorem size_bounded_by_capacity {T : Type} (c : Nat) (ops : List (Op T))
    (h : ∀ op ∈ ops, OpSourcesWF op) :
    ∀ s ∈ trace (AsyncDeque.new T c) ops,
      0 ≤ s.size ∧ s.size ≤ s.capacity ∧ s.capacity = c := by
  intro s hs
  obtain ⟨h1, h2⟩ := trace_inv ops (AsyncDeque.new T c) h (by simp [AsyncDeque.new]) s hs
  exact ⟨Nat.zero_le _, h1, h2⟩

/-- Witness for C3 on a trace with pushes, a move-assignment, close, pop. -/
theorem size_bounded_by_capacity_witness :
    (∀ op ∈ ([Op.pushBack 1, Op.pushBack 2, Op.moveAssignFrom false (AsyncDeque.new Nat 2),
        Op.close, Op.popFront] : List (Op Nat)), OpSourcesWF op) ∧
    (∀ s ∈ trace (AsyncDeque.new Nat 2)
        [Op.pushBack 1, Op.pushBack 2, Op.moveAssignFrom false (AsyncDeque.new Nat 2),
          Op.close, Op.popFront],
      0 ≤ s.size ∧ s.size ≤ s.capacity ∧ s.capacity = 2) :=
  ⟨by decide, size_bounded_by_capacity 2 _ (by decide)⟩

/-- C6: pushing any finite sequence of values with push_back into an open
empty queue of sufficient capacity succeeds, and draining with pop_front
returns exactly the pushed sequence in order (FIFO round-trip), leaving the
queue empty. -/
theorem fifo_round_trip {T : Type} (q : AsyncDeque T) (xs : List T)
    (hopen : q.closed_ = false) (hempty : q.deque_ = [])
    (hcap : xs.length ≤ q.capacity_) :
    (pushAllBack q xs).map (fun q2 => popAllFront q2 xs.length) =
      some (xs, ⟨[], false, q.capacity_⟩) := by
  have h1 := pushAllBack_spec xs q hopen (by rw [hempty]; simpa using hcap)
  have h2 := popAllFront_spec xs ⟨q.deque_ ++ xs, false, q.capacity_⟩ (by rw [hempty]; simp)
  rw [h1, Option.map_some', h2]

/-- Witness for C6 at xs = [1, 2, 3], capacity 3. -/
theorem fifo_round_trip_witness :
    ((⟨[], false, 3⟩ : AsyncDeque Nat).closed_ = false ∧
      (⟨[], false, 3⟩ : AsyncDeque Nat).deque_ = [] ∧
      ([1, 2, 3] : List Nat).length ≤ (⟨[], false, 3⟩ : AsyncDeque Nat).capacity_) ∧
    (pushAllBack (⟨[], false, 3⟩ : AsyncDeque Nat) [1, 2, 3]).map
        (fun q2 => popAllFront q2 ([1, 2, 3] : List Nat).length) =
      some ([1, 2, 3], ⟨[], false, 3⟩) :=
  ⟨⟨rfl, rfl, by decide⟩, fifo_round_trip _ _ rfl rfl (by decide)⟩

/-- C7: pushing any finite sequence of values with push_back into an open
empty queue of sufficient capacity succeeds, and draining with pop_back
returns exactly the reverse of the pushed sequence (LIFO round-trip),
leaving the queue empty. -/
theorem lifo_round_trip {T : Type} (q : AsyncDeque T) (xs : List T)
    (hopen : q.closed_ = false) (hempty : q.deque_ = [])
    (hcap : xs.length ≤ q.capacity_) :
    (pushAllBack q xs).map (fun q2 => popAllBack q2 xs.length) =
      some (xs.reverse, ⟨[], false, q.capacity_⟩) := by
  have h1 := pushAllBack_spec xs q hopen (by rw [hempty]; simpa using hcap)
  have h2 := popAllBack_spec xs.length ⟨q.deque_ ++ xs, false, q.capacity_⟩
    (by rw [hempty]; simp)
  rw [h1, Option.map_some', h2]
  rw [hempty]
  simp

/-- Witness for C7 at xs = [1, 2, 3], capacity 3. -/
theorem lifo_round_trip_witness :
    ((⟨[], false, 3⟩ : AsyncDeque Nat).closed_ = false ∧
      (⟨[], false, 3⟩ : AsyncDeque Nat).deque_ = [] ∧
      ([1, 2, 3] : List Nat).length ≤ (⟨[], false, 3⟩ : AsyncDeque Nat).capacity_) ∧
    (pushAllBack (⟨[], false, 3⟩ : AsyncDeque Nat) [1, 2, 3]).map
        (fun q2 => popAllBack q2 ([1, 2, 3] : List Nat).length) =
      some (([1, 2, 3] : List Nat).reverse, ⟨[], false, 3⟩) :=
  ⟨⟨rfl, rfl, by decide⟩, lifo_round_trip _ _ rfl rfl (by decide)⟩

/-- C8: close() is idempotent: for every queue state, calling close N ≥ 1
times yields exactly the state and hook events of a single call; the first
call on an open queue sets closed and fires on_close once, and close on an
already-closed queue returns leaving the state unchanged and firing
nothing. -/
theorem close_idempotent {T : Type} (q : AsyncDeque T) (n : Nat) (h : 1 ≤ n) :
    closeN q n = q.close ∧
    (q.closed_ = false → q.close = (⟨q.deque_, true, q.capacity_⟩, [HookEvent.onClose])) ∧
    (q.closed_ = true → q.close = (q, [])) := by
  obtain ⟨m, rfl⟩ := Nat.exists_eq_add_of_le h
  refine ⟨?_, ?_, ?_⟩
  · have hc2 : q.close.1.closed_ = true := by
      rcases close_cases q with ⟨h1, hq⟩ | ⟨h1, hq⟩ <;> simp [hq, h1]
    rw [Nat.add_comm]
    simp only [closeN]
    rw [closeN_closed m q.close.1 hc2]
    simp
  · intro hc
    rcases close_cases q with ⟨h1, hq⟩ | ⟨h1, hq⟩
    · rw [h1] at hc
      exact absurd hc (by simp)
    · exact hq
  · intro hc
    rcases close_cases q with ⟨h1, hq⟩ | ⟨h1, hq⟩
    · exact hq
    · rw [h1] at hc
      exact absurd hc (by simp)

/-- Witness for C8: three calls on an open queue holding [5]. -/
theorem close_idempotent_witness :
    1 ≤ 3 ∧
    (closeN (⟨[5], false, 4⟩ : AsyncDeque Nat) 3 = (⟨[5], false, 4⟩ : AsyncDeque Nat).close ∧
      ((⟨[5], false, 4⟩ : AsyncDeque Nat).closed_ = false →
        (⟨[5], false, 4⟩ : AsyncDeque Nat).close = (⟨[5], true, 4⟩, [HookEvent.onClose])) ∧
      ((⟨[5], false, 4⟩ : AsyncDeque Nat).closed_ = true →
        (⟨[5], false, 4⟩ : AsyncDeque Nat).close = (⟨[5], false, 4⟩, []))) :=
  ⟨by decide, close_idempotent _ 3 (by decide)⟩

/-- C9: along any trace of push, pop and close operations started on a
fresh queue, the hook-event log contains exactly one on_push_back event per
successful (true-returning) push_back or try_push_back, and likewise for
the front-push, back-pop and front-pop hooks and their operations; on_close
fires exactly once when the trace contains a close and never otherwise, and
no pop hook fires for items still in the queue at close. -/
theorem hook_counts {T : Type} (c : Nat) (ops : List (Op T))
    (h : ∀ op ∈ ops, isPushPopClose op = true) :
    (runTrace (AsyncDeque.new T c) ops).2.countP isPushBackEvent =
      (stepPairs (AsyncDeque.new T c) ops).countP succPushBack ∧
    (runTrace (AsyncDeque.new T c) ops).2.countP isPushFrontEvent =
      (stepPairs (AsyncDeque.new T c) ops).countP succPushFront ∧
    (runTrace (AsyncDeque.new T c) ops).2.countP isPopBackEvent =
      (stepPairs (AsyncDeque.new T c) ops).countP succPopBack ∧
    (runTrace (AsyncDeque.new T c) ops).2.countP isPopFrontEvent =
      (stepPairs (AsyncDeque.new T c) ops).countP succPopFront ∧
    (runTrace (AsyncDeque.new T c) ops).2.countP isCloseEvent =
      (if ops.any isCloseOp = true then 1 else 0) := by
  refine ⟨?_, ?_, ?_, ?_, ?_⟩
  · exact runTrace_countP_eq _ _ (fun q op => (step_counts q op).1) ops _
  · exact runTrace_countP_eq _ _ (fun q op => (step_counts q op).2.1) ops _
  · exact runTrace_countP_eq _ _ (fun q op => (step_counts q op).2.2.1) ops _
  · exact runTrace_countP_eq _ _ (fun q op => (step_counts q op).2.2.2.1) ops _
  · have h5 := runTrace_close_count ops (AsyncDeque.new T c) h
    simpa [AsyncDeque.new] using h5

/-- Witness for C9: two pushes, two pops (one hitting an empty queue), a
close and a failing push after it. -/
theorem hook_counts_witness :
    (∀ op ∈ ([Op.pushBack 1, Op.pushFront 2, Op.popBack, Op.popFront, Op.popFront,
        Op.close, Op.pushBack 9] : List (Op Nat)), isPushPopClose op = true) ∧
    ((runTrace (AsyncDeque.new Nat 5) [Op.pushBack 1, Op.pushFront 2, Op.popBack, Op.popFront,
        Op.popFront, Op.close, Op.pushBack 9]).2.countP isPushBackEvent =
      (stepPairs (AsyncDeque.new Nat 5) [Op.pushBack 1, Op.pushFront 2, Op.popBack, Op.popFront,
        Op.popFront, Op.close, Op.pushBack 9]).countP succPushBack ∧
    (runTrace (AsyncDeque.new Nat 5) [Op.pushBack 1, Op.pushFront 2, Op.popBack, Op.popFront,
        Op.popFront, Op.close, Op.pushBack 9]).2.countP isPushFrontEvent =
      (stepPairs (AsyncDeque.new Nat 5) [Op.pushBack 1, Op.pushFront 2, Op.popBack, Op.popFront,
        Op.popFront, Op.close, Op.pushBack 9]).countP succPushFront ∧
    (runTrace (AsyncDeque.new Nat 5) [Op.pushBack 1, Op.pushFront 2, Op.popBack, Op.popFront,
        Op.popFront, Op.close, Op.pushBack 9]).2.countP isPopBackEvent =
      (stepPairs (AsyncDeque.new Nat 5) [Op.pushBack 1, Op.pushFront 2, Op.popBack, Op.popFront,
        Op.popFront, Op.close, Op.pushBack 9]).countP succPopBack ∧
    (runTrace (AsyncDeque.new Nat 5) [Op.pushBack 1, Op.pushFront 2, Op.popBack, Op.popFront,
        Op.popFront, Op.close, Op.pushBack 9]).2.countP isPopFrontEvent =
      (stepPairs (AsyncDeque.new Nat 5) [Op.pushBack 1, Op.pushFront 2, Op.popBack, Op.popFront,
        Op.popFront, Op.close, Op.pushBack 9]).countP succPopFront ∧
    (runTrace (AsyncDeque.new Nat 5) [Op.pushBack 1, Op.pushFront 2, Op.popBack, Op.popFront,
        Op.popFront, Op.close, Op.pushBack 9]).2.countP isCloseEvent =
      (if ([Op.pushBack 1, Op.pushFront 2, Op.popBack, Op.popFront, Op.popFront,
        Op.close, Op.pushBack 9] : List (Op Nat)).any isCloseOp = true then 1 else 0)) :=
  ⟨by decide, hook_counts 5 _ (by decide)⟩
